import Mathlib

/-!
Verification of the Netflix EDA dashboard's cleaning and aggregation layer.

This file is a shallow embedding, in Lean 4, of the data-cleaning and
aggregation layer of `src/net.py` (a pandas/seaborn Streamlit dashboard over a
media catalog).  Pandas tables are modelled as Lean lists of records, pandas
missing values (`NaN`) as `Option`, Python strings as Lean `String` (a list of
characters, matching Python's sequence-of-code-points view), and pandas float
columns holding integral quantities as `Nat`/`Int`/`ℚ`.

The external pandas parsers `pd.to_datetime` (lenient date parser) and
`pd.to_numeric` are not part of the repository's code; they are taken as
parameters, so every theorem below holds for *any* parser behaviour.
-/

/-! ## Character-list string utilities

`src/net.py` manipulates strings through the pandas `.str` accessor:
`.str.split(',')`, `.str.strip()`, `.str[0]`, `.str.extract(r'(\d+)')`.
Each is translated here as a structurally recursive function on the
character list underlying a `String`, so that all of them evaluate by
kernel reduction on concrete inputs.
-/

/-- Python `s.split(',')`: split a character list at every comma, keeping
empty pieces (so `"a,".split(',') = ["a", ""]` and `"".split(',') = [""]`). -/
def splitOnComma : List Char → List (List Char)
  | [] => [[]]
  | c :: cs =>
    if c = ',' then [] :: splitOnComma cs
    else
      match splitOnComma cs with
      | [] => [[c]]
      | p :: ps => (c :: p) :: ps

/-- Pandas `.str.split(',')` on a string, producing strings. -/
def splitCommas (s : String) : List String :=
  (splitOnComma s.data).map String.mk

/-- Python `str.strip()` on a character list: drop whitespace from both ends. -/
def trimChars (l : List Char) : List Char :=
  ((l.dropWhile Char.isWhitespace).reverse.dropWhile Char.isWhitespace).reverse

/-- Pandas `.str.strip()` on a string. -/
def trimStr (s : String) : String :=
  String.mk (trimChars s.data)

/-- The chain `.str.split(',').str[0].str.strip()` from the Global Distribution view
(line 282 of `src/net.py`): the first comma-separated piece, stripped. -/
def firstCountry (s : String) : String :=
  trimStr (String.mk ((splitOnComma s.data).headD []))

/-- The numeric value of a list of decimal digit characters. -/
def digitsToNat (l : List Char) : Nat :=
  l.foldl (fun n c => 10 * n + (c.toNat - 48)) 0

/-- The first match of the regex `(\d+)` in a character list: scan for the
first digit, then take the maximal contiguous digit run from there.
`none` when the list contains no digit (regex does not match). -/
def extractFirstGroup : List Char → Option (List Char)
  | [] => none
  | c :: cs =>
    if c.isDigit then some (c :: cs.takeWhile Char.isDigit)
    else extractFirstGroup cs

/-- Pandas `.str.extract(r'(\d+)').astype(float)` on one string (line 54 of
`src/net.py`); the extracted float is integral, modelled as a `Nat`. -/
def strExtractDigits (s : String) : Option Nat :=
  (extractFirstGroup s.data).map digitsToNat

/-- The duration rule as the spec words it (§4.1): "extract the first
contiguous run of digits in the string as `duration_num` (a number); if no
digits found, `duration_num` is absent" — drop everything before the first
digit, then the run is the maximal digit prefix of what remains. -/
def specFirstDigitRun (s : String) : Option Nat :=
  let l := s.data.dropWhile (fun c => !c.isDigit)
  if l.isEmpty then none else some (digitsToNat (l.takeWhile Char.isDigit))

/-! ## Data model

A raw catalog row, as read by `pd.read_csv` (line 43): every optional CSV
cell is an `Option String` (`none` = pandas `NaN`).  Per the data contract
(§3 of the spec) the `type` and `title` columns are always present. -/

structure RawRow where
  type : String
  title : String
  director : Option String
  cast : Option String
  country : Option String
  date_added : Option String
  release_year : Option String
  rating : Option String
  duration : Option String
  listed_in : Option String

/-- A cleaned catalog row (the result of lines 48–54 of `src/net.py`).
`δ` is the abstract datetime type produced by the external
`pd.to_datetime` parser. -/
structure CleanRow (δ : Type) where
  type : String
  title : String
  director : String
  cast : String
  country : String
  date_added : Option δ
  year_added : Option Int
  release_year : Option ℚ
  rating : Option String
  duration : Option String
  duration_num : Option Nat
  listed_in : Option String

/-- The cleaning pass applied to one row (lines 48–54 of `src/net.py`):

* `df['cast'] = df['cast'].fillna('Unknown')` (same for `director`, `country`);
* `df['date_added'] = pd.to_datetime(df['date_added'], errors='coerce')`,
  modelled by the parameter `toDatetime` (`none` = `NaT`);
* `df['year_added'] = df['date_added'].dt.year`, modelled by `yearOfDate`;
* `df['release_year'] = pd.to_numeric(df['release_year'], errors='coerce')`,
  modelled by the parameter `toNumeric`;
* `df['duration_num'] = df['duration'].str.extract(r'(\d+)').astype(float)`.
-/
def cleanRow {δ : Type} (toDatetime : String → Option δ) (yearOfDate : δ → Int)
    (toNumeric : String → Option ℚ) (r : RawRow) : CleanRow δ where
  type := r.type
  title := r.title
  director := r.director.getD "Unknown"
  cast := r.cast.getD "Unknown"
  country := r.country.getD "Unknown"
  date_added := r.date_added.bind toDatetime
  year_added := (r.date_added.bind toDatetime).map yearOfDate
  release_year := r.release_year.bind toNumeric
  rating := r.rating
  duration := r.duration
  duration_num := r.duration.bind strExtractDigits
  listed_in := r.listed_in

/-- The cleaning pass over the whole table: pandas column assignments act
element-wise, i.e. row by row. -/
def clean {δ : Type} (toDatetime : String → Option δ) (yearOfDate : δ → Int)
    (toNumeric : String → Option ℚ) (rows : List RawRow) : List (CleanRow δ) :=
  rows.map (cleanRow toDatetime yearOfDate toNumeric)

/-! ## Counting and ordering (pandas `value_counts`, `groupby(...).size()`)

`value_counts()` returns the distinct values of a series with their
occurrence counts, sorted by count descending; `groupby` with its default
`sort=True` returns groups sorted ascending by key.  Both are modelled with
structurally recursive helpers (an accumulator-based distinct-values scan and
an insertion sort) so that concrete instances evaluate by kernel reduction.
-/

/-- Distinct elements of `l`, in first-seen order, skipping those in `seen`. -/
def firstSeenAux {α : Type} [DecidableEq α] (seen : List α) : List α → List α
  | [] => []
  | x :: xs =>
    if x ∈ seen then firstSeenAux seen xs
    else x :: firstSeenAux (x :: seen) xs

/-- Distinct elements of `l`, in first-seen order. -/
def firstSeen {α : Type} [DecidableEq α] (l : List α) : List α :=
  firstSeenAux [] l

/-- Insert `x` into `l` before the first element `y` with `le x y`. -/
def insertLe {α : Type} (le : α → α → Bool) (x : α) : List α → List α
  | [] => [x]
  | y :: ys => if le x y then x :: y :: ys else y :: insertLe le x ys

/-- Insertion sort with respect to the boolean relation `le`; stable, since
each element is inserted in front of later, `le`-equivalent ones. -/
def sortLe {α : Type} (le : α → α → Bool) : List α → List α
  | [] => []
  | x :: xs => insertLe le x (sortLe le xs)

/-- Pandas `series.value_counts()`: the distinct values with their counts, sorted by
count descending (ties in first-seen order, the stable order of the sort). -/
def valueCounts (l : List String) : List (String × Nat) :=
  sortLe (fun a b => Nat.ble b.2 a.2) ((firstSeen l).map fun v => (v, l.count v))

/-- The `series.dropna().str.split(',').explode().str.strip()` chain of the
Top-10 views (lines 135, 153, 229, 247 of `src/net.py`), starting after the
`dropna()` step: split every value on commas, one exploded row per piece,
then strip each piece. -/
def explodeSplitTrim (col : List String) : List String :=
  (col.flatMap splitCommas).map trimStr

/-- A whole Top-10 series: `col.dropna().str.split(',').explode().str.strip()
.value_counts().head(n)`; `dropna` is the `filterMap id` on the option-valued
column. -/
def topNSeries (col : List (Option String)) (n : Nat) : List (String × Nat) :=
  (valueCounts (explodeSplitTrim (col.filterMap id))).take n

/-! ### The key order used by `groupby(['country', 'type'])`

pandas sorts group keys ascending; for string keys this is Python's string
comparison, i.e. lexicographic comparison of the code-point sequences. -/

/-- Strict lexicographic order on character lists, by code point. -/
def lexLt : List Char → List Char → Bool
  | [], [] => false
  | [], _ :: _ => true
  | _ :: _, [] => false
  | a :: as, b :: bs =>
    if a.toNat < b.toNat then true
    else if b.toNat < a.toNat then false
    else lexLt as bs

/-- Python `<` on strings. -/
def strLt (a b : String) : Bool :=
  lexLt a.data b.data

/-- Python `<=` on strings. -/
def strLe (a b : String) : Bool :=
  strLt a b || a == b

/-- Non-strict lexicographic order on `(country, type)` keys:
country ascending, then type ascending. -/
def keyLe (a b : String × String) : Bool :=
  strLt a.1 b.1 || (a.1 == b.1 && strLe a.2 b.2)

/-- Strict lexicographic order on `(country, type)` keys. -/
def keyLt (a b : String × String) : Bool :=
  strLt a.1 b.1 || (a.1 == b.1 && strLt a.2 b.2)

/-- The Global Distribution aggregation (lines 281–284 of `src/net.py`):

```
country_df = df.copy()
country_df['country'] = country_df['country'].str.split(',').str[0].str.strip()
country_count = country_df.groupby(['country', 'type']).size().reset_index(name='count')
country_count = country_count[country_count['country'] != 'Unknown']
```

`groupby(...).size()` lists each distinct `(country, type)` key once, sorted
ascending by key, with the number of rows carrying that key; the filter then
drops the groups whose country is the literal `"Unknown"`. -/
def groupByCountryAndType {δ : Type} (rows : List (CleanRow δ)) : List (String × String × Nat) :=
  let country_df := rows.map fun r => { r with country := firstCountry r.country }
  let keys := country_df.map fun r => (r.country, r.type)
  let groups := sortLe keyLe (firstSeen keys)
  (groups.map fun k => (k.1, k.2, keys.count k)).filter fun g => decide (g.1 ≠ "Unknown")

/-! ## The generic top-N aggregator of the spec (§4.2)

`src/net.py` hardcodes each top-N call against one fixed list-valued column
(`listed_in`, `country`, `cast`, `director`); the generic
`topN(cleanTable, column, n)` entry point with its `InvalidColumn` rejection
exists only in the spec.  It is modelled here from the spec's words. -/

/-- The columns of the cleaned table. -/
inductive ColumnId
  | type | title | director | cast | country | date_added | release_year
  | rating | duration | duration_num | listed_in | year_added
deriving DecidableEq

/-- The four list-valued text columns (comma-separated multi-value fields,
§4.2 of the spec): `director`, `cast`, `country`, `listed_in`. -/
def listValuedText : ColumnId → Bool
  | .director => true
  | .cast => true
  | .country => true
  | .listed_in => true
  | _ => false

/-- Error taxonomy of the spec's §7 that can reach an aggregation caller. -/
inductive AggError
  | invalidColumn
deriving DecidableEq

/-- Modelled from the spec: the generic `topN(cleanTable, column, n)`
aggregator of §4.2 is missing from `src/net.py`, which instead hardcodes the
four per-column call sites (lines 135, 153, 229, 247).  On the four
list-valued text columns it runs the hardcoded
`dropna().str.split(',').explode().str.strip().value_counts().head(n)`
pipeline; on any other column it "fails with an InvalidColumn condition ...
surfaced to the caller as a rejected request". -/
def topN {δ : Type} (t : List (CleanRow δ)) (c : ColumnId) (n : Nat) :
    Except AggError (List (String × Nat)) :=
  match c with
  | .director => .ok (topNSeries (t.map fun r => some r.director) n)
  | .cast => .ok (topNSeries (t.map fun r => some r.cast) n)
  | .country => .ok (topNSeries (t.map fun r => some r.country) n)
  | .listed_in => .ok (topNSeries (t.map fun r => r.listed_in) n)
  | _ => .error .invalidColumn

/-! ## The correlation matrix (line 266: `df[['release_year', 'year_added',
'duration_num']].corr()`)

pandas `DataFrame.corr()` computes, for every pair of columns, the Pearson
coefficient over the rows where *both* columns are present (its default
`min_periods=1`), writing `NaN` when no row is jointly present or when a
column of the pair has zero variance on the jointly present rows (the
divisor `sqrt(sumxx) * sqrt(sumyy)` is zero).

The float entry `cov / (sqrt sxx * sqrt syy)` is represented exactly by the
pair of rationals `(cov, sxx * syy)` — the denoted real number is
`cov / Real.sqrt (sxx * syy)` (see `PearsonVal.val`) — and `NaN` by `none`.
-/

/-- The three numeric columns handed to `corr()`. -/
inductive NumCol
  | release_year | year_added | duration_num
deriving DecidableEq

/-- The value of a numeric column in a row (`none` = `NaN`); the float years
and duration counts are integral, embedded into `ℚ`. -/
def numColVal {δ : Type} : NumCol → CleanRow δ → Option ℚ
  | .release_year, r => r.release_year
  | .year_added, r => r.year_added.map fun i => (i : ℚ)
  | .duration_num, r => r.duration_num.map fun n => (n : ℚ)

/-- The present (non-`NaN`) values of one numeric column. -/
def presentVals {δ : Type} (i : NumCol) (t : List (CleanRow δ)) : List ℚ :=
  t.filterMap (numColVal i)

/-- The jointly present value pairs of two columns: the rows where both are
present, in table order — pairwise-complete observations. -/
def jointPairs {δ : Type} (t : List (CleanRow δ)) (i j : NumCol) : List (ℚ × ℚ) :=
  t.filterMap fun r =>
    match numColVal i r, numColVal j r with
    | some a, some b => some (a, b)
    | _, _ => none

/-- Exact representation of one non-`NaN` Pearson coefficient: the denoted
real number is `num / Real.sqrt den2`, with `num` the covariance sum and
`den2` the product of the two variance sums (see `PearsonVal.val`). -/
structure PearsonVal where
  num : ℚ
  den2 : ℚ
deriving DecidableEq

/-- The real number a `PearsonVal` stands for. -/
noncomputable def PearsonVal.val (v : PearsonVal) : ℝ :=
  (v.num : ℝ) / Real.sqrt (v.den2 : ℝ)

/-- The deviations of a list of values from its mean. -/
def devs (l : List ℚ) : List ℚ :=
  l.map fun x => x - l.sum / l.length

/-- The Pearson computation of pandas `nancorr` on one list of jointly
present pairs: with `dx`, `dy` the deviations of the two coordinates from
their means over the jointly present rows, the coefficient is
`Σ dx*dy / (sqrt (Σ dx²) * sqrt (Σ dy²))`; `NaN` (`none`) when no pair is
present (pandas' default `min_periods=1` unmet) or when the divisor
`sqrt(sumxx) * sqrt(sumyy)` is zero. -/
def pearson (l : List (ℚ × ℚ)) : Option PearsonVal :=
  if l.length = 0 then none
  else
    let dx := devs (l.map Prod.fst)
    let dy := devs (l.map Prod.snd)
    let sxx : ℚ := (dx.map fun d => d ^ 2).sum
    let syy : ℚ := (dy.map fun d => d ^ 2).sum
    let sxy : ℚ := (List.zipWith (fun a b => a * b) dx dy).sum
    if sxx * syy = 0 then none else some ⟨sxy, sxx * syy⟩

/-- One entry of `df[['release_year', 'year_added', 'duration_num']].corr()`. -/
def corrEntry {δ : Type} (t : List (CleanRow δ)) (i j : NumCol) : Option PearsonVal :=
  pearson (jointPairs t i j)

/-- The full 3×3 matrix, rows and columns in the order of line 266. -/
def corrMatrix {δ : Type} (t : List (CleanRow δ)) : List (List (Option PearsonVal)) :=
  [NumCol.release_year, NumCol.year_added, NumCol.duration_num].map fun i =>
    [NumCol.release_year, NumCol.year_added, NumCol.duration_num].map fun j =>
      corrEntry t i j

/-! ## The fourteen views

Each branch of the `if choice == ... / elif choice == ...` dispatch of
`src/net.py` reads the cleaned table `df` and builds the data handed to its
chart.  `runView` returns that data together with the table as it stands when
the branch finishes — the Global Distribution branch (lines 281–284) puts its
country rewrite on `country_df = df.copy()`, a local copy, so the table it
leaves behind is the one it received. -/

/-- The fourteen sidebar choices (lines 28–36 of `src/net.py`). -/
inductive View
  | datasetPreview | dataCleaning | missingHeatmap | moviesVsTv
  | titlesPerYear | topGenres | topCountries | ratingsDistribution
  | movieDuration | tvSeasons | topActors | topDirectors
  | corrHeatmap | globalMap
deriving DecidableEq

/-- The chart-feeding data a view hands to the rendering collaborator. -/
inductive ViewOut (δ : Type)
  | table : List (CleanRow δ) → ViewOut δ
  | text : ViewOut δ
  | mask : List (List Bool) → ViewOut δ
  | counts : List (String × Nat) → ViewOut δ
  | yearCounts : List (Int × Nat) → ViewOut δ
  | nums : List Nat → ViewOut δ
  | corr : List (List (Option PearsonVal)) → ViewOut δ
  | groups : List (String × String × Nat) → ViewOut δ

/-- The per-row `df.isnull()` mask over the cleaned columns, in the column
order of the cleaned table (the five filled/always-present string columns
are never null). -/
def isnullRow {δ : Type} (r : CleanRow δ) : List Bool :=
  [false, false, false, false, false, r.date_added.isNone, r.year_added.isNone,
    r.release_year.isNone, r.rating.isNone, r.duration.isNone,
    r.duration_num.isNone, r.listed_in.isNone]

/-- One full request–render cycle over the cleaned table: the view's
aggregation output, paired with the table left behind for the next request. -/
def runView {δ : Type} (v : View) (t : List (CleanRow δ)) : ViewOut δ × List (CleanRow δ) :=
  match v with
  | .datasetPreview => (.table (t.take 5), t)
  | .dataCleaning => (.text, t)
  | .missingHeatmap => (.mask (t.map isnullRow), t)
  | .moviesVsTv =>
      (.counts ((firstSeen (t.map fun r => r.type)).map fun v =>
        (v, (t.map fun r => r.type).count v)), t)
  | .titlesPerYear =>
      (.yearCounts ((sortLe (fun a b => decide (a ≤ b))
          (firstSeen (t.filterMap fun r => r.year_added))).map fun y =>
        (y, (t.filterMap fun r => r.year_added).count y)), t)
  | .topGenres => (.counts (topNSeries (t.map fun r => r.listed_in) 10), t)
  | .topCountries => (.counts (topNSeries (t.map fun r => some r.country) 10), t)
  | .ratingsDistribution =>
      (.counts ((valueCounts (t.filterMap fun r => r.rating)).take 10), t)
  | .movieDuration =>
      (.nums ((t.filter fun r => r.type == "Movie").filterMap fun r => r.duration_num), t)
  | .tvSeasons =>
      (.nums ((t.filter fun r => r.type == "TV Show").filterMap fun r => r.duration_num), t)
  | .topActors => (.counts (topNSeries (t.map fun r => some r.cast) 10), t)
  | .topDirectors => (.counts (topNSeries (t.map fun r => some r.director) 10), t)
  | .corrHeatmap => (.corr (corrMatrix t), t)
  | .globalMap => (.groups (groupByCountryAndType t), t)

/-! ## Helper lemmas: the distinct-values scan and the insertion sort -/

theorem firstSeenAux_mem {α : Type} [DecidableEq α] (seen : List α) (l : List α) (a : α) :
    a ∈ firstSeenAux seen l ↔ a ∈ l ∧ a ∉ seen := by
  induction l generalizing seen with
  | nil => simp [firstSeenAux]
  | cons x xs ih =>
    by_cases hx : x ∈ seen
    · simp only [firstSeenAux, if_pos hx, ih, List.mem_cons]
      constructor
      · rintro ⟨h1, h2⟩; exact ⟨Or.inr h1, h2⟩
      · rintro ⟨h1 | h1, h2⟩
        · exact absurd (h1 ▸ hx) h2
        · exact ⟨h1, h2⟩
    · simp only [firstSeenAux, if_neg hx, List.mem_cons, ih, List.mem_cons]
      constructor
      · rintro (rfl | ⟨h1, h2⟩)
        · exact ⟨Or.inl rfl, hx⟩
        · exact ⟨Or.inr h1, fun hs => h2 (Or.inr hs)⟩
      · rintro ⟨rfl | h1, h2⟩
        · exact Or.inl rfl
        · by_cases hax : a = x
          · exact Or.inl hax
          · exact Or.inr ⟨h1, fun hs => (by cases hs with
              | inl h => exact hax h
              | inr h => exact h2 h : False)⟩

theorem firstSeen_mem {α : Type} [DecidableEq α] (l : List α) (a : α) :
    a ∈ firstSeen l ↔ a ∈ l := by
  simp [firstSeen, firstSeenAux_mem]

theorem firstSeenAux_nodup {α : Type} [DecidableEq α] (seen : List α) (l : List α) :
    (firstSeenAux seen l).Nodup := by
  induction l generalizing seen with
  | nil => simp [firstSeenAux]
  | cons x xs ih =>
    by_cases hx : x ∈ seen
    · simpa [firstSeenAux, if_pos hx] using ih seen
    · simp only [firstSeenAux, if_neg hx]
      refine List.Pairwise.cons ?_ (ih (x :: seen))
      intro a ha
      have := (firstSeenAux_mem (x :: seen) xs a).1 ha
      intro h
      exact this.2 (h ▸ List.mem_cons_self x seen)

theorem firstSeen_nodup {α : Type} [DecidableEq α] (l : List α) :
    (firstSeen l).Nodup :=
  firstSeenAux_nodup [] l

theorem insertLe_perm {α : Type} (le : α → α → Bool) (x : α) (l : List α) :
    (insertLe le x l).Perm (x :: l) := by
  induction l with
  | nil => exact List.Perm.refl _
  | cons y ys ih =>
    by_cases h : le x y
    · simp [insertLe, h]
    · simp only [insertLe, if_neg h]
      exact (ih.cons y).trans (List.Perm.swap x y ys)

theorem sortLe_perm {α : Type} (le : α → α → Bool) (l : List α) :
    (sortLe le l).Perm l := by
  induction l with
  | nil => exact List.Perm.refl _
  | cons x xs ih =>
    exact (insertLe_perm le x (sortLe le xs)).trans (ih.cons x)

theorem mem_insertLe {α : Type} (le : α → α → Bool) (x a : α) (l : List α) :
    a ∈ insertLe le x l ↔ a = x ∨ a ∈ l := by
  rw [(insertLe_perm le x l).mem_iff]; simp

theorem sorted_insertLe {α : Type} (le : α → α → Bool)
    (htot : ∀ a b, le a b = true ∨ le b a = true)
    (htrans : ∀ a b c, le a b = true → le b c = true → le a c = true)
    (x : α) (l : List α)
    (hl : l.Pairwise fun a b => le a b = true) :
    (insertLe le x l).Pairwise fun a b => le a b = true := by
  induction l with
  | nil => simp [insertLe]
  | cons y ys ih =>
    rcases List.pairwise_cons.1 hl with ⟨hy, hys⟩
    by_cases h : le x y
    · simp only [insertLe, if_pos h]
      refine List.Pairwise.cons ?_ hl
      intro a ha
      rcases List.mem_cons.1 ha with rfl | ha
      · exact h
      · exact htrans x y a h (hy a ha)
    · simp only [insertLe, if_neg h]
      refine List.Pairwise.cons ?_ (ih hys)
      intro a ha
      rcases (mem_insertLe le x a ys).1 ha with rfl | ha
      · cases htot a y with
        | inl h2 => exact absurd h2 h
        | inr h2 => exact h2
      · exact hy a ha

theorem sorted_sortLe {α : Type} (le : α → α → Bool)
    (htot : ∀ a b, le a b = true ∨ le b a = true)
    (htrans : ∀ a b c, le a b = true → le b c = true → le a c = true)
    (l : List α) : (sortLe le l).Pairwise fun a b => le a b = true := by
  induction l with
  | nil => simp [sortLe]
  | cons x xs ih => exact sorted_insertLe le htot htrans x (sortLe le xs) ih

/-! ## Helper lemmas: the code-point lexicographic order -/

theorem charEq_of_toNat_eq {a b : Char} (h : a.toNat = b.toNat) : a = b :=
  Char.ext (UInt32.ext h)

theorem lexLt_irrefl (l : List Char) : lexLt l l = false := by
  induction l with
  | nil => rfl
  | cons c cs ih => simp [lexLt, ih]

theorem lexLt_trans : ∀ a b c : List Char,
    lexLt a b = true → lexLt b c = true → lexLt a c = true
  | [], [], _, hab, _ => by simp [lexLt] at hab
  | [], _ :: _, [], _, hbc => by simp [lexLt] at hbc
  | [], _ :: _, _ :: _, _, _ => by simp [lexLt]
  | _ :: _, [], _, hab, _ => by simp [lexLt] at hab
  | _ :: _, _ :: _, [], _, hbc => by simp [lexLt] at hbc
  | x :: xs, y :: ys, z :: zs, hab, hbc => by
    simp only [lexLt] at hab hbc ⊢
    split_ifs at hab hbc ⊢ with h1 h2 h3 h4 h5 h6
    all_goals first
      | rfl
      | omega
      | (exact lexLt_trans xs ys zs hab hbc)

theorem lexLt_total : ∀ a b : List Char,
    lexLt a b = true ∨ a = b ∨ lexLt b a = true
  | [], [] => Or.inr (Or.inl rfl)
  | [], _ :: _ => Or.inl rfl
  | _ :: _, [] => Or.inr (Or.inr rfl)
  | x :: xs, y :: ys => by
    rcases Nat.lt_trichotomy x.toNat y.toNat with h | h | h
    · exact Or.inl (by simp [lexLt, h])
    · have hxy : x = y := charEq_of_toNat_eq h
      subst hxy
      rcases lexLt_total xs ys with h2 | h2 | h2
      · exact Or.inl (by simp [lexLt, h2])
      · exact Or.inr (Or.inl (by rw [h2]))
      · exact Or.inr (Or.inr (by simp [lexLt, h2]))
    · exact Or.inr (Or.inr (by simp [lexLt, h, Nat.lt_asymm h]))

theorem lexLt_asymm {a b : List Char} (h : lexLt a b = true) : lexLt b a = false := by
  by_contra hc
  have hba : lexLt b a = true := by
    cases hx : lexLt b a with
    | true => rfl
    | false => exact absurd hx hc
  have := lexLt_trans a b a h hba
  rw [lexLt_irrefl] at this
  exact Bool.false_ne_true this

theorem strLt_irrefl (a : String) : strLt a a = false :=
  lexLt_irrefl a.data

theorem strLt_trans {a b c : String} (h1 : strLt a b = true) (h2 : strLt b c = true) :
    strLt a c = true :=
  lexLt_trans a.data b.data c.data h1 h2

theorem strLt_total (a b : String) : strLt a b = true ∨ a = b ∨ strLt b a = true := by
  rcases lexLt_total a.data b.data with h | h | h
  · exact Or.inl h
  · exact Or.inr (Or.inl (congrArg String.mk h))
  · exact Or.inr (Or.inr h)

theorem strLt_asymm {a b : String} (h : strLt a b = true) : strLt b a = false :=
  lexLt_asymm h

theorem strLt_of_ne_of_not_lt {a b : String} (hne : a ≠ b) (h : strLt a b = false) :
    strLt b a = true := by
  rcases strLt_total a b with h1 | h1 | h1
  · rw [h1] at h; exact absurd h (by simp)
  · exact absurd h1 hne
  · exact h1

theorem strLe_refl (a : String) : strLe a a = true := by
  simp [strLe]

theorem keyLe_total (a b : String × String) : keyLe a b = true ∨ keyLe b a = true := by
  rcases strLt_total a.1 b.1 with h | h | h
  · exact Or.inl (by simp [keyLe, h])
  · rcases strLt_total a.2 b.2 with h2 | h2 | h2
    · exact Or.inl (by simp [keyLe, strLe, h, h2])
    · exact Or.inl (by simp [keyLe, strLe, h, h2])
    · exact Or.inr (by simp [keyLe, strLe, h.symm, h2])
  · exact Or.inr (by simp [keyLe, h])

theorem keyLe_trans (a b c : String × String)
    (h1 : keyLe a b = true) (h2 : keyLe b c = true) : keyLe a c = true := by
  simp only [keyLe, strLe, Bool.or_eq_true, Bool.and_eq_true, beq_iff_eq] at h1 h2 ⊢
  rcases h1 with h1 | ⟨h1e, h1r⟩
  · rcases h2 with h2 | ⟨h2e, _⟩
    · exact Or.inl (strLt_trans h1 h2)
    · exact Or.inl (h2e ▸ h1)
  · rcases h2 with h2 | ⟨h2e, h2r⟩
    · exact Or.inl (h1e ▸ h2)
    · refine Or.inr ⟨h1e.trans h2e, ?_⟩
      rcases h1r with h1r | h1r
      · rcases h2r with h2r | h2r
        · exact Or.inl (strLt_trans h1r h2r)
        · exact Or.inl (h2r ▸ h1r)
      · rcases h2r with h2r | h2r
        · exact Or.inl (h1r ▸ h2r)
        · exact Or.inr (h1r.trans h2r)

theorem keyLe_antisymm {a b : String × String}
    (h1 : keyLe a b = true) (h2 : keyLe b a = true) : a = b := by
  simp only [keyLe, strLe, Bool.or_eq_true, Bool.and_eq_true, beq_iff_eq] at h1 h2
  rcases h1 with h1 | ⟨h1e, h1r⟩
  · rcases h2 with h2 | ⟨h2e, _⟩
    · rw [strLt_asymm h1] at h2
      exact absurd h2 (by simp)
    · rw [h2e] at h1
      rw [strLt_irrefl] at h1
      exact absurd h1 (by simp)
  · rcases h2 with h2 | ⟨h2e, h2r⟩
    · rw [h1e] at h2
      rw [strLt_irrefl] at h2
      exact absurd h2 (by simp)
    · have hsnd : a.2 = b.2 := by
        rcases h1r with h1r | h1r
        · rcases h2r with h2r | h2r
          · rw [strLt_asymm h1r] at h2r
            exact absurd h2r (by simp)
          · exact h2r.symm
        · exact h1r
      exact Prod.ext h1e hsnd

theorem keyLt_of_keyLe_of_ne {a b : String × String}
    (h : keyLe a b = true) (hne : a ≠ b) : keyLt a b = true := by
  simp only [keyLe, strLe, Bool.or_eq_true, Bool.and_eq_true, beq_iff_eq] at h
  simp only [keyLt, Bool.or_eq_true, Bool.and_eq_true, beq_iff_eq]
  rcases h with h | ⟨he, hr⟩
  · exact Or.inl h
  · refine Or.inr ⟨he, ?_⟩
    rcases hr with hr | hr
    · exact hr
    · exact absurd (Prod.ext he hr) hne

/-! ## Helper lemmas: `value_counts` and the geography grouping -/

theorem mem_valueCounts {l : List String} {lab : String} (h : lab ∈ l) :
    (lab, l.count lab) ∈ valueCounts l := by
  rw [valueCounts, (sortLe_perm _ _).mem_iff]
  exact List.mem_map_of_mem _ ((firstSeen_mem l lab).2 h)

theorem valueCounts_count_eq {l : List String} {lab : String} {k : Nat}
    (h : (lab, k) ∈ valueCounts l) : k = l.count lab := by
  rw [valueCounts, (sortLe_perm _ _).mem_iff] at h
  rcases List.mem_map.1 h with ⟨v, _, hv⟩
  cases hv
  rfl

theorem valueCounts_sorted (l : List String) :
    (valueCounts l).Pairwise fun a b => b.2 ≤ a.2 := by
  have h := sorted_sortLe (fun a b : String × Nat => Nat.ble b.2 a.2)
    (fun a b => by
      rcases Nat.le_total b.2 a.2 with h | h
      · exact Or.inl (by simpa [Nat.ble_eq] using h)
      · exact Or.inr (by simpa [Nat.ble_eq] using h))
    (fun a b c h1 h2 => by
      simp only [Nat.ble_eq] at h1 h2 ⊢
      exact le_trans h2 h1)
    ((firstSeen l).map fun v => (v, l.count v))
  exact h.imp fun hab => by simpa [Nat.ble_eq] using hab

theorem splitOnComma_ne_nil (l : List Char) : splitOnComma l ≠ [] := by
  cases l with
  | nil => simp [splitOnComma]
  | cons c cs =>
    by_cases h : c = ','
    · simp [splitOnComma, h]
    · simp only [splitOnComma, if_neg h]
      cases hs : splitOnComma cs with
      | nil => simp
      | cons p ps => simp

theorem splitOnComma_headD (l : List Char) :
    (splitOnComma l).headD [] = l.takeWhile fun c => c != ',' := by
  induction l with
  | nil => rfl
  | cons c cs ih =>
    by_cases h : c = ','
    · simp [splitOnComma, h, List.takeWhile_cons]
    · simp only [splitOnComma, if_neg h]
      cases hs : splitOnComma cs with
      | nil => exact absurd hs (splitOnComma_ne_nil cs)
      | cons p ps =>
        rw [hs] at ih
        simp only [List.headD_cons] at ih
        simp [List.takeWhile_cons, h, ← ih]

/-- The country key of a row, after the per-row country rewrite of line 282. -/
theorem firstCountry_spec (s : String) :
    firstCountry s = trimStr (String.mk (s.data.takeWhile fun c => c != ',')) := by
  rw [firstCountry, splitOnComma_headD]

/-- The geography grouping, rewritten over the original rows: the local copy
`country_df` only rewrites the country field, so its keys are the
`(firstCountry country, type)` pairs of the input rows. -/
theorem gbct_eq {δ : Type} (rows : List (CleanRow δ)) :
    groupByCountryAndType rows =
      ((sortLe keyLe (firstSeen (rows.map fun r => (firstCountry r.country, r.type)))).map
        fun k => (k.1, k.2, (rows.map fun r => (firstCountry r.country, r.type)).count k)).filter
        fun g => decide (g.1 ≠ "Unknown") := by
  simp only [groupByCountryAndType, List.map_map]
  rfl

theorem gbct_mem {δ : Type} (rows : List (CleanRow δ)) (c t : String) (k : Nat) :
    (c, t, k) ∈ groupByCountryAndType rows ↔
      c ≠ "Unknown" ∧ (c, t) ∈ (rows.map fun r => (firstCountry r.country, r.type)) ∧
        k = (rows.map fun r => (firstCountry r.country, r.type)).count (c, t) := by
  rw [gbct_eq]
  constructor
  · intro h
    rcases List.mem_filter.1 h with ⟨hmem, hne⟩
    rcases List.mem_map.1 hmem with ⟨key, hkey, hval⟩
    cases hval
    rw [(sortLe_perm _ _).mem_iff, firstSeen_mem] at hkey
    exact ⟨by simpa using hne, hkey, rfl⟩
  · rintro ⟨hne, hmem, rfl⟩
    refine List.mem_filter.2 ⟨?_, by simpa using hne⟩
    refine List.mem_map.2 ⟨(c, t), ?_, rfl⟩
    rw [(sortLe_perm _ _).mem_iff, firstSeen_mem]
    exact hmem

theorem gbct_sorted {δ : Type} (rows : List (CleanRow δ)) :
    (groupByCountryAndType rows).Pairwise fun g h =>
      keyLt (g.1, g.2.1) (h.1, h.2.1) = true := by
  rw [gbct_eq]
  set keys := rows.map fun r => (firstCountry r.country, r.type) with hk
  have hsorted : (sortLe keyLe (firstSeen keys)).Pairwise fun a b => keyLe a b = true :=
    sorted_sortLe keyLe (fun a b => keyLe_total a b)
      (fun a b c => keyLe_trans a b c) (firstSeen keys)
  have hnodup : (sortLe keyLe (firstSeen keys)).Nodup :=
    ((sortLe_perm keyLe (firstSeen keys)).nodup_iff).2 (firstSeen_nodup keys)
  have hstrict : (sortLe keyLe (firstSeen keys)).Pairwise fun a b => keyLt a b = true :=
    (hsorted.and hnodup).imp fun hab => keyLt_of_keyLe_of_ne hab.1 hab.2
  refine List.Pairwise.filter _ ?_
  exact List.pairwise_map.2 hstrict

/-! ## Helper lemmas: duration extraction, explode chain -/

theorem extractFirstGroup_eq (l : List Char) :
    extractFirstGroup l =
      if (l.dropWhile fun c => !c.isDigit).isEmpty then none
      else some ((l.dropWhile fun c => !c.isDigit).takeWhile Char.isDigit) := by
  induction l with
  | nil => rfl
  | cons c cs ih =>
    by_cases h : c.isDigit
    · simp [extractFirstGroup, h, List.dropWhile_cons, List.takeWhile_cons]
    · simp [extractFirstGroup, h, List.dropWhile_cons, ih]

/-- The source's regex extraction computes exactly the spec's
"first contiguous run of digits" rule. -/
theorem strExtractDigits_eq_spec (s : String) :
    strExtractDigits s = specFirstDigitRun s := by
  rw [strExtractDigits, specFirstDigitRun, extractFirstGroup_eq]
  split
  · rfl
  · rfl

theorem specFirstDigitRun_of_no_digit {s : String}
    (h : ∀ c ∈ s.data, c.isDigit = false) : specFirstDigitRun s = none := by
  rw [specFirstDigitRun]
  have : (s.data.dropWhile fun c => !c.isDigit) = [] :=
    List.dropWhile_eq_nil_iff.2 fun c hc => by simp [h c hc]
  simp [this]

theorem explodeSplitTrim_append (c1 c2 : List String) :
    explodeSplitTrim (c1 ++ c2) = explodeSplitTrim c1 ++ explodeSplitTrim c2 := by
  simp [explodeSplitTrim, List.flatMap_append]

/-! ## Helper lemmas: the Pearson computation -/

theorem listSum_eq_zero {l : List ℚ} (h : ∀ x ∈ l, 0 ≤ x) (hs : l.sum = 0) :
    ∀ x ∈ l, x = 0 := by
  induction l with
  | nil => simp
  | cons a as ih =>
    rw [List.sum_cons] at hs
    have ha : 0 ≤ a := h a (List.mem_cons_self a as)
    have has : 0 ≤ as.sum := List.sum_nonneg fun x hx => h x (List.mem_cons_of_mem a hx)
    have := (add_eq_zero_iff_of_nonneg ha has).1 hs
    intro x hx
    rcases List.mem_cons.1 hx with rfl | hx
    · exact this.1
    · exact ih (fun y hy => h y (List.mem_cons_of_mem a hy)) this.2 x hx

theorem jointPairs_swap {δ : Type} (t : List (CleanRow δ)) (i j : NumCol) :
    jointPairs t j i = (jointPairs t i j).map fun p => (p.2, p.1) := by
  induction t with
  | nil => rfl
  | cons r rs ih =>
    simp only [jointPairs, List.filterMap_cons] at ih ⊢
    cases hi : numColVal i r <;> cases hj : numColVal j r <;> simp [hi, hj, ih]

theorem pearson_swap (l : List (ℚ × ℚ)) :
    pearson (l.map fun p => (p.2, p.1)) = pearson l := by
  rw [pearson, pearson]
  simp only [List.length_map, List.map_map]
  by_cases h0 : l.length = 0
  · simp [h0]
  · rw [if_neg h0, if_neg h0]
    have e1 : l.map (Prod.fst ∘ fun p : ℚ × ℚ => (p.2, p.1)) = l.map Prod.snd := rfl
    have e2 : l.map (Prod.snd ∘ fun p : ℚ × ℚ => (p.2, p.1)) = l.map Prod.fst := rfl
    rw [e1, e2]
    rw [List.zipWith_comm_of_comm (fun a b => a * b) (fun a b => mul_comm a b)]
    rw [mul_comm (((devs (l.map Prod.snd)).map fun d => d ^ 2).sum)]

theorem jointPairs_filter {δ : Type} (t : List (CleanRow δ)) (i j : NumCol) :
    jointPairs (t.filter fun r => (numColVal i r).isSome && (numColVal j r).isSome) i j =
      jointPairs t i j := by
  induction t with
  | nil => rfl
  | cons r rs ih =>
    simp only [jointPairs, List.filter_cons] at ih ⊢
    cases hi : numColVal i r <;> cases hj : numColVal j r <;>
      simp [hi, hj, List.filterMap_cons] <;> exact ih

theorem jointPairs_diag {δ : Type} (t : List (CleanRow δ)) (i : NumCol) :
    jointPairs t i i = (presentVals i t).map fun a => (a, a) := by
  induction t with
  | nil => rfl
  | cons r rs ih =>
    simp only [jointPairs, presentVals, List.filterMap_cons] at ih ⊢
    cases hi : numColVal i r <;> simp [hi, ih]

theorem pearson_diag {vals : List ℚ} {a b : ℚ}
    (ha : a ∈ vals) (hb : b ∈ vals) (hab : a ≠ b) :
    ∃ v : PearsonVal, pearson (vals.map fun x => (x, x)) = some v ∧ v.val = 1 := by
  have h0 : (vals.map fun x : ℚ => (x, x)).length ≠ 0 := by
    simp only [List.length_map]
    intro h
    exact absurd (List.length_eq_zero.1 h ▸ ha) (List.not_mem_nil a)
  have efst : ((vals.map fun x : ℚ => (x, x)).map Prod.fst) = vals := by
    simp only [List.map_map]
    exact List.map_id vals
  have esnd : ((vals.map fun x : ℚ => (x, x)).map Prod.snd) = vals := by
    simp only [List.map_map]
    exact List.map_id vals
  rw [pearson, if_neg h0, efst, esnd]
  set d := devs vals with hd
  set sxx : ℚ := (d.map fun x => x ^ 2).sum with hsxx
  have hzip : (List.zipWith (fun a b => a * b) d d).sum = sxx := by
    rw [List.zipWith_same, hsxx]
    congr 1
    exact List.map_congr_left fun x _ => (sq x).symm
  have hnn : ∀ x ∈ d.map fun x => x ^ 2, 0 ≤ x := by
    intro x hx
    rcases List.mem_map.1 hx with ⟨y, _, rfl⟩
    exact sq_nonneg y
  have hsxx_nonneg : 0 ≤ sxx := List.sum_nonneg hnn
  have hsxx_ne : sxx ≠ 0 := by
    intro hzero
    have hall := listSum_eq_zero hnn hzero
    have hmean : ∀ x ∈ vals, x = vals.sum / vals.length := by
      intro x hx
      have hxd : (x - vals.sum / vals.length) ^ 2 ∈ d.map fun x => x ^ 2 := by
        refine List.mem_map_of_mem _ ?_
        exact List.mem_map_of_mem _ hx
      have h1 := hall _ hxd
      have h2 : x - vals.sum / vals.length = 0 := (pow_eq_zero_iff two_ne_zero).1 h1
      exact sub_eq_zero.1 h2
    have := (hmean a ha).trans (hmean b hb).symm
    exact hab this
  have hsxx_pos : 0 < sxx := lt_of_le_of_ne hsxx_nonneg (Ne.symm hsxx_ne)
  rw [if_neg (by simpa [mul_self_eq_zero] using hsxx_ne), hzip]
  refine ⟨⟨sxx, sxx * sxx⟩, rfl, ?_⟩
  rw [PearsonVal.val]
  have hcast : ((sxx * sxx : ℚ) : ℝ) = (sxx : ℝ) * (sxx : ℝ) := by push_cast; ring
  rw [hcast, Real.sqrt_mul_self (by exact_mod_cast hsxx_nonneg)]
  rw [div_self (by exact_mod_cast hsxx_ne)]

theorem pearson_of_short {l : List (ℚ × ℚ)} (h : l.length < 2) : pearson l = none := by
  match l with
  | [] => rfl
  | [p] =>
    rw [pearson]
    simp [devs, div_one]
  | p :: q :: rest => simp at h; omega

theorem corrEntry_symm {δ : Type} (t : List (CleanRow δ)) (i j : NumCol) :
    corrEntry t i j = corrEntry t j i := by
  rw [corrEntry, corrEntry, jointPairs_swap, pearson_swap]

theorem corrEntry_pairwise_complete {δ : Type} (t : List (CleanRow δ)) (i j : NumCol) :
    corrEntry t i j =
      corrEntry (t.filter fun r => (numColVal i r).isSome && (numColVal j r).isSome) i j := by
  rw [corrEntry, corrEntry, jointPairs_filter]

theorem corrEntry_diag_one {δ : Type} (t : List (CleanRow δ)) (i : NumCol) {a b : ℚ}
    (ha : a ∈ presentVals i t) (hb : b ∈ presentVals i t) (hab : a ≠ b) :
    ∃ v : PearsonVal, corrEntry t i i = some v ∧ v.val = 1 := by
  rw [corrEntry, jointPairs_diag]
  exact pearson_diag ha hb hab

theorem corrEntry_short {δ : Type} (t : List (CleanRow δ)) (i j : NumCol)
    (h : (jointPairs t i j).length < 2) : corrEntry t i j = none :=
  pearson_of_short h

/-! ## Concrete example rows -/

/-- A raw example row: missing director, present cast and country. -/
def exRaw : RawRow where
  type := "Movie"
  title := "T"
  director := none
  cast := some "Actor A"
  country := some "USA"
  date_added := none
  release_year := none
  rating := none
  duration := some "90 min"
  listed_in := some "Drama"

/-- A cleaned example row with the given country and type; every other
field is at its missing/sentinel value. -/
def exRow (c ty : String) : CleanRow Unit where
  type := ty
  title := ""
  director := "Unknown"
  cast := "Unknown"
  country := c
  date_added := none
  year_added := none
  release_year := none
  rating := none
  duration := none
  duration_num := none
  listed_in := none

/-- A cleaned example row with the given `release_year` value. -/
def exNumRow (q : Option ℚ) : CleanRow Unit :=
  { exRow "Unknown" "Movie" with release_year := q }

/-- Row A of the spec's §8 geography example: country "France, Belgium",
type "Movie". -/
def exRowA : CleanRow Unit := exRow "France, Belgium" "Movie"

/-- Row B of the spec's §8 geography example: country "Unknown",
type "TV Show". -/
def exRowB : CleanRow Unit := exRow "Unknown" "TV Show"

/-- A row whose country field packs two comma-separated countries. -/
def exRowUSAIndia : CleanRow Unit := exRow "USA, India" "Movie"

/-! ## The claims -/

/-- C1: after `clean`, the `director`, `cast` and `country` fields are never
absent: a row whose raw field was missing holds the literal string
`"Unknown"`, and a row whose raw field was present keeps its original value
unchanged (no other transformation; `fillna` only replaces `NaN`). -/
theorem C1_clean_fillna_unknown (δ : Type) (toDatetime : String → Option δ)
    (yearOfDate : δ → Int) (toNumeric : String → Option ℚ) (r : RawRow) :
    ((r.director = none →
        (cleanRow toDatetime yearOfDate toNumeric r).director = "Unknown") ∧
      (∀ v, r.director = some v →
        (cleanRow toDatetime yearOfDate toNumeric r).director = v)) ∧
    ((r.cast = none →
        (cleanRow toDatetime yearOfDate toNumeric r).cast = "Unknown") ∧
      (∀ v, r.cast = some v →
        (cleanRow toDatetime yearOfDate toNumeric r).cast = v)) ∧
    ((r.country = none →
        (cleanRow toDatetime yearOfDate toNumeric r).country = "Unknown") ∧
      (∀ v, r.country = some v →
        (cleanRow toDatetime yearOfDate toNumeric r).country = v)) := by
  refine ⟨⟨fun h => ?_, fun v h => ?_⟩, ⟨fun h => ?_, fun v h => ?_⟩,
    ⟨fun h => ?_, fun v h => ?_⟩⟩ <;> simp [cleanRow, h]

/-- C1 witness: on `exRaw` (director missing, cast and country present), the
cleaned row holds `"Unknown"`, `"Actor A"` and `"USA"`. -/
theorem C1_clean_fillna_unknown_witness :
    (cleanRow (fun _ => (none : Option Unit)) (fun _ => 0) (fun _ => none) exRaw).director
        = "Unknown" ∧
    (cleanRow (fun _ => (none : Option Unit)) (fun _ => 0) (fun _ => none) exRaw).cast
        = "Actor A" ∧
    (cleanRow (fun _ => (none : Option Unit)) (fun _ => 0) (fun _ => none) exRaw).country
        = "USA" := by
  have h := C1_clean_fillna_unknown Unit (fun _ => none) (fun _ => 0) (fun _ => none) exRaw
  exact ⟨h.1.1 rfl, h.2.1.2 "Actor A" rfl, h.2.2.2 "USA" rfl⟩

/-- C8: `clean` returns a table with exactly the same row count and row
order as the input — the `i`-th cleaned row is the cleaning of the `i`-th
raw row (fields normalized, `year_added` and `duration_num` added) and no
row is dropped. -/
theorem C8_clean_preserves_rows (δ : Type) (toDatetime : String → Option δ)
    (yearOfDate : δ → Int) (toNumeric : String → Option ℚ) (rows : List RawRow) :
    (clean toDatetime yearOfDate toNumeric rows).length = rows.length ∧
    ∀ i : Nat, (clean toDatetime yearOfDate toNumeric rows)[i]? =
      rows[i]?.map (cleanRow toDatetime yearOfDate toNumeric) := by
  refine ⟨by simp [clean], fun i => ?_⟩
  simp [clean, List.getElem?_map]

/-- C5: `clean` sets `duration_num` to the number formed by the first
contiguous run of digits of the duration string (the spec-side rule
`specFirstDigitRun`), to absent when the duration has no digits, and to
absent when the duration itself is absent; in particular `"90 min" ↦ 90`
and `"3 Seasons" ↦ 3`. -/
theorem C5_duration_num_first_digit_run (δ : Type) (toDatetime : String → Option δ)
    (yearOfDate : δ → Int) (toNumeric : String → Option ℚ) (r : RawRow) :
    (r.duration = none →
      (cleanRow toDatetime yearOfDate toNumeric r).duration_num = none) ∧
    (∀ s, r.duration = some s →
      (cleanRow toDatetime yearOfDate toNumeric r).duration_num = specFirstDigitRun s) ∧
    (∀ s, r.duration = some s → (∀ c ∈ s.data, c.isDigit = false) →
      (cleanRow toDatetime yearOfDate toNumeric r).duration_num = none) ∧
    strExtractDigits "90 min" = some 90 ∧ strExtractDigits "3 Seasons" = some 3 := by
  refine ⟨fun h => by simp [cleanRow, h], fun s h => ?_, fun s h hnd => ?_,
    by decide, by decide⟩
  · simp [cleanRow, h, strExtractDigits_eq_spec]
  · simp [cleanRow, h, strExtractDigits_eq_spec, specFirstDigitRun_of_no_digit hnd]

/-- C5 witness: on `exRaw` (duration `"90 min"`), the cleaned row's
`duration_num` is `90`. -/
theorem C5_duration_num_first_digit_run_witness :
    (cleanRow (fun _ => (none : Option Unit)) (fun _ => 0) (fun _ => none) exRaw).duration_num
        = some 90 := by
  have h := (C5_duration_num_first_digit_run Unit (fun _ => none) (fun _ => 0)
    (fun _ => none) exRaw).2.1 "90 min" rfl
  rw [h]
  decide

/-- C9: every one of the fourteen view aggregations leaves the cleaned
table unchanged: the table `runView` hands to the next request is the table
it received.  Thirteen views only read `df`; the Global Distribution view
rewrites the country column of `country_df = df.copy()`, a local copy. -/
theorem C9_views_preserve_table (δ : Type) (v : View) (t : List (CleanRow δ)) :
    (runView v t).2 = t := by
  cases v <;> rfl

/-- C3: `groupByCountryAndType` takes, for every row, only the first
comma-separated country value with surrounding whitespace trimmed (the
`takeWhile`-up-to-the-first-comma reading of `firstCountry`), groups rows by
the `(country, type)` pair with the count of rows per group — a triple is in
the output exactly when its country is not `"Unknown"`, its key occurs in
the rows, and its count is the number of rows with that key — and the
output is ordered by country ascending, then type ascending (strict
lexicographic `keyLt` between consecutive groups). -/
theorem C3_groupByCountryAndType_contract (δ : Type) (rows : List (CleanRow δ)) :
    (∀ s, firstCountry s = trimStr (String.mk (s.data.takeWhile fun c => c != ','))) ∧
    (∀ c t k, (c, t, k) ∈ groupByCountryAndType rows ↔
      c ≠ "Unknown" ∧ (c, t) ∈ (rows.map fun r => (firstCountry r.country, r.type)) ∧
        k = (rows.map fun r => (firstCountry r.country, r.type)).count (c, t)) ∧
    (groupByCountryAndType rows).Pairwise fun g h =>
      keyLt (g.1, g.2.1) (h.1, h.2.1) = true :=
  ⟨firstCountry_spec, fun c t k => gbct_mem rows c t k, gbct_sorted rows⟩

/-- C3 witness: on the two-row table `[exRowA, exRowB]` the group
`("France", "Movie", 1)` is produced. -/
theorem C3_groupByCountryAndType_contract_witness :
    ("France", "Movie", 1) ∈ groupByCountryAndType [exRowA, exRowB] :=
  ((C3_groupByCountryAndType_contract Unit [exRowA, exRowB]).2.1 "France" "Movie" 1).2
    ⟨by decide, by decide, by decide⟩

/-- C4 counterexample: on the spec's §8 example table (row A country
`"France, Belgium"` type `"Movie"`, row B country `"Unknown"` type
`"TV Show"`), the code does *not* yield
`[("Belgium", "Movie", 1), ("France", "Movie", 1)]` — line 282 keeps only
the first comma-separated country, so Belgium never appears. -/
theorem C4_geography_example_counterexample :
    groupByCountryAndType [exRowA, exRowB] ≠
      [("Belgium", "Movie", 1), ("France", "Movie", 1)] := by
  decide

/-- C4 amended: on the §8 example table, `groupByCountryAndType` yields
exactly `[("France", "Movie", 1)]` — row A contributes only its first
country, France; row B contributes to no group. -/
theorem C4_geography_example_actual :
    groupByCountryAndType [exRowA, exRowB] = [("France", "Movie", 1)] := by
  decide

/-- C2 counterexample: a single row with country `"USA, India"` does *not*
increment an `"India"` count in the geography grouping of 4.4 — the group
list is exactly `[("USA", "Movie", 1)]` and no `("India", "Movie", 1)`
group exists, because line 282 keeps only the first comma-separated
country. -/
theorem C2_geography_india_counterexample :
    groupByCountryAndType [exRowUSAIndia] = [("USA", "Movie", 1)] ∧
    ("India", "Movie", 1) ∉ groupByCountryAndType [exRowUSAIndia] := by
  decide

/-- C2 amended: a row whose country field is `"USA, India"` is never
dropped, but the two aggregations treat it differently: in the exploded
top-N pipeline of 4.2 it contributes exactly one count to `"USA"` *and* one
to `"India"` (and `"USA"` is listed with its exact count by
`value_counts`); in the geography grouping of 4.4 it contributes exactly
one count to the `("USA", type)` group and nothing to `("India", type)`,
since only the first comma-separated country is kept. -/
theorem C2_explode_and_geography_contribution (δ : Type) (col : List String)
    (rows : List (CleanRow δ)) (r : CleanRow δ) (hc : r.country = "USA, India") :
    ((explodeSplitTrim (col ++ ["USA, India"])).count "USA"
        = (explodeSplitTrim col).count "USA" + 1) ∧
    ((explodeSplitTrim (col ++ ["USA, India"])).count "India"
        = (explodeSplitTrim col).count "India" + 1) ∧
    (("USA", (explodeSplitTrim (col ++ ["USA, India"])).count "USA")
        ∈ valueCounts (explodeSplitTrim (col ++ ["USA, India"]))) ∧
    (((rows ++ [r]).map fun x => (firstCountry x.country, x.type)).count ("USA", r.type)
        = ((rows.map fun x => (firstCountry x.country, x.type)).count ("USA", r.type)) + 1) ∧
    (((rows ++ [r]).map fun x => (firstCountry x.country, x.type)).count ("India", r.type)
        = (rows.map fun x => (firstCountry x.country, x.type)).count ("India", r.type)) := by
  have hsplit : explodeSplitTrim ["USA, India"] = ["USA", "India"] := by decide
  have hcu : (["USA", "India"] : List String).count "USA" = 1 := by decide
  have hci : (["USA", "India"] : List String).count "India" = 1 := by decide
  have hfc : firstCountry "USA, India" = "USA" := by decide
  have hne : ("India" : String) ≠ "USA" := by decide
  have husa : (explodeSplitTrim (col ++ ["USA, India"])).count "USA"
      = (explodeSplitTrim col).count "USA" + 1 := by
    rw [explodeSplitTrim_append, List.count_append, hsplit, hcu]
  have hindia : (explodeSplitTrim (col ++ ["USA, India"])).count "India"
      = (explodeSplitTrim col).count "India" + 1 := by
    rw [explodeSplitTrim_append, List.count_append, hsplit, hci]
  refine ⟨husa, hindia, ?_, ?_, ?_⟩
  · refine mem_valueCounts ?_
    rw [explodeSplitTrim_append, hsplit]
    simp
  · rw [List.map_append, List.count_append]
    simp [hc, hfc, List.count_cons]
  · rw [List.map_append, List.count_append]
    simp [hc, hfc, List.count_cons, hne]

/-- C2 witness: the amended contribution statement at the concrete
one-row instances. -/
theorem C2_explode_and_geography_contribution_witness :
    (explodeSplitTrim ([] ++ ["USA, India"])).count "India"
        = (explodeSplitTrim []).count "India" + 1 ∧
    ((([] : List (CleanRow Unit)) ++ [exRowUSAIndia]).map fun x =>
        (firstCountry x.country, x.type)).count ("USA", exRowUSAIndia.type)
      = (([] : List (CleanRow Unit)).map fun x =>
          (firstCountry x.country, x.type)).count ("USA", exRowUSAIndia.type) + 1 := by
  have h := C2_explode_and_geography_contribution Unit [] [] exRowUSAIndia rfl
  exact ⟨h.2.1, h.2.2.2.1⟩

/-- C6: the spec's generic `topN`, invoked with a column that is not a
list-valued text field, fails with the `InvalidColumn` condition surfaced to
the caller as a rejected request — it never silently produces counts. -/
theorem C6_topN_invalid_column (δ : Type) (t : List (CleanRow δ)) (c : ColumnId)
    (n : Nat) (h : listValuedText c = false) :
    topN t c n = Except.error AggError.invalidColumn := by
  cases c <;> first | rfl | simp [listValuedText] at h

/-- C6 witness: `topN` against the numeric `release_year` column is
rejected. -/
theorem C6_topN_invalid_column_witness :
    topN ([] : List (CleanRow Unit)) ColumnId.release_year 10
        = Except.error AggError.invalidColumn :=
  C6_topN_invalid_column Unit [] ColumnId.release_year 10 rfl

/-- C10: splitting on commas in the exploded top-N pipeline does not
discard empty pieces: `"Drama,"` explodes to `["Drama", ""]`, and whenever
a present field value yields an empty piece, the empty-string label is in
the exploded list, is listed by `value_counts` with its exact occurrence
count (at least one), and is ranked by the same count-descending rule as
every other label. -/
theorem C10_explode_keeps_empty_pieces (col : List String) (s : String)
    (hs : s ∈ col) (he : "" ∈ splitCommas s) :
    explodeSplitTrim ["Drama,"] = ["Drama", ""] ∧
    "" ∈ explodeSplitTrim col ∧
    ("", (explodeSplitTrim col).count "") ∈ valueCounts (explodeSplitTrim col) ∧
    0 < (explodeSplitTrim col).count "" ∧
    (valueCounts (explodeSplitTrim col)).Pairwise fun a b => b.2 ≤ a.2 := by
  have hmem : "" ∈ explodeSplitTrim col := by
    rw [explodeSplitTrim]
    refine List.mem_map.2 ⟨"", List.mem_flatMap.2 ⟨s, hs, he⟩, rfl⟩
  exact ⟨by decide, hmem, mem_valueCounts hmem, List.count_pos_iff.2 hmem,
    valueCounts_sorted _⟩

/-- C10 witness: on the column `["Drama,"]` the empty label is listed by
`value_counts` with its count. -/
theorem C10_explode_keeps_empty_pieces_witness :
    ("", (explodeSplitTrim ["Drama,"]).count "")
        ∈ valueCounts (explodeSplitTrim ["Drama,"]) :=
  (C10_explode_keeps_empty_pieces ["Drama,"] "Drama," (by decide) (by decide)).2.2.1

/-- C7 counterexample: a release-year column holding the same value
`2000` in both rows has two present values, yet the diagonal entry of
`corr()` is `NaN` (`none`), not `1.0` — the divisor
`sqrt(sumxx) * sqrt(sumyy)` is zero for a zero-variance column, and pandas
writes `NaN`, so "diagonal is 1.0 for any column with at least two present
values" fails on degenerate columns. -/
theorem C7_corr_diag_constant_counterexample :
    (presentVals NumCol.release_year
        [exNumRow (some 2000), exNumRow (some 2000)]).length = 2 ∧
    corrEntry [exNumRow (some 2000), exNumRow (some 2000)]
        NumCol.release_year NumCol.release_year = none := by
  constructor
  · rfl
  · have hj : jointPairs [exNumRow (some 2000), exNumRow (some 2000)]
        NumCol.release_year NumCol.release_year
          = [((2000 : ℚ), (2000 : ℚ)), (2000, 2000)] := rfl
    rw [corrEntry, hj, pearson]
    norm_num [devs]

/-- C7 amended: `corr()` over the three numeric columns is symmetric and
pairwise-complete (each entry is computed only over the rows where both
columns of its pair are present, unaffected by the other column), a pair
with fewer than two jointly present data points yields `NaN` (`none`),
never zero, and the diagonal denotes exactly the real number `1.0` for any
column with two *distinct* present values (non-degenerate; a constant
column instead yields `NaN`, see the counterexample). -/
theorem C7_corr_matrix_contract (δ : Type) (t : List (CleanRow δ)) :
    (∀ i j, corrEntry t i j = corrEntry t j i) ∧
    (∀ i j, corrEntry t i j =
      corrEntry (t.filter fun r => (numColVal i r).isSome && (numColVal j r).isSome) i j) ∧
    (∀ i (a b : ℚ), a ∈ presentVals i t → b ∈ presentVals i t → a ≠ b →
      ∃ v : PearsonVal, corrEntry t i i = some v ∧ v.val = 1) ∧
    (∀ i j, (jointPairs t i j).length < 2 → corrEntry t i j = none) :=
  ⟨fun i j => corrEntry_symm t i j,
    fun i j => corrEntry_pairwise_complete t i j,
    fun i a b ha hb hab => corrEntry_diag_one t i ha hb hab,
    fun i j h => corrEntry_short t i j h⟩

/-- C7 witness: with release years `0` and `1` (distinct), the diagonal
release-year entry denotes `1.0`; with `duration_num` absent everywhere,
the `(release_year, duration_num)` entry has no jointly present pair and is
`NaN`. -/
theorem C7_corr_matrix_contract_witness :
    (∃ v : PearsonVal,
      corrEntry [exNumRow (some 0), exNumRow (some 1)]
          NumCol.release_year NumCol.release_year = some v ∧ v.val = 1) ∧
    corrEntry [exNumRow (some 0), exNumRow (some 1)]
        NumCol.release_year NumCol.duration_num = none := by
  refine ⟨(C7_corr_matrix_contract Unit [exNumRow (some 0), exNumRow (some 1)]).2.2.1
      NumCol.release_year 0 1 (by decide) (by decide) (by decide),
    (C7_corr_matrix_contract Unit [exNumRow (some 0), exNumRow (some 1)]).2.2.2
      NumCol.release_year NumCol.duration_num (by decide)⟩
